import Mathlib

/-!
Verification of `mov2mp4.py` — a CLI that converts `.mov` files to `.mp4`
by invoking the external `ffmpeg` executable.

The development shallowly embeds the script:
* paths are lists of `/`-separated components (`FPath`), with the
  `pathlib` suffix operations (`suffix`, `with_suffix`) modelled on
  character lists;
* the filesystem is a finite tree (`FS`); `glob`/`rglob` enumeration is
  modelled after `pathlib`'s wildcard selectors;
* the environment (`Env`) carries the result of `shutil.which("ffmpeg")`,
  the filesystem, and the success of each `subprocess.run` invocation;
* side effects (directory creation, process execution) are recorded in an
  event trace; `sys.exit` is modelled by `Except Nat`.
-/

namespace Mov2mp4

/-! ### pathlib name/suffix model

`pathlib.PurePath.suffix` of a name: with `i` the index of the last dot,
the suffix is `name[i:]` when `0 < i < len(name) - 1`, else the empty
string.  We compute on the reversed character list: `j` is the number of
characters after the last dot, the conditions become `0 < j` (the dot is
not the last character) and `j + 1 < length` (the dot is not the first
character). -/

/-- The number of characters after the last dot of the reversed name:
`revTail cs.reverse` is `len - 1 - i` for `i` the last-dot index. -/
def revTailLen (rev : List Char) : Nat :=
  (rev.takeWhile (fun c => c ≠ '.')).length

/-- The `pathlib` suffix (extension, with the leading dot) of a file
name given as a character list. -/
def suffixChars (cs : List Char) : List Char :=
  if 0 < revTailLen cs.reverse ∧ revTailLen cs.reverse + 1 < cs.reverse.length
  then (cs.reverse.take (revTailLen cs.reverse + 1)).reverse
  else []

/-- The name with its `pathlib` suffix removed (`PurePath.stem`). -/
def stemChars (cs : List Char) : List Char :=
  cs.take (cs.length - (suffixChars cs).length)

/-- `pathlib.PurePath.with_suffix` on the file name: drop the old suffix
(if any) and append the new one. -/
def withSuffixChars (cs sfx : List Char) : List Char :=
  if (suffixChars cs).isEmpty then cs ++ sfx
  else cs.take (cs.length - (suffixChars cs).length) ++ sfx

/-- String-level wrapper for `suffixChars` (`Path(...).suffix`). -/
def nameSuffix (s : String) : String := ⟨suffixChars s.data⟩

/-- A filesystem path, as its `/`-separated components (`PurePath._parts`). -/
structure FPath where
  parts : List String
deriving DecidableEq, Repr

/-- `Path.name`: the last component (empty for an empty path). -/
def FPath.name (p : FPath) : String := (p.parts.getLast?).getD ""

/-- `Path.with_suffix(sfx)`: replace the suffix of the last component. -/
def FPath.withSuffix (p : FPath) (sfx : String) : FPath :=
  ⟨p.parts.dropLast ++ [⟨withSuffixChars p.name.data sfx.data⟩]⟩

/-- `str(path)`: components joined by `/`. -/
def pathStr (parts : List String) : String := String.intercalate "/" parts

/-! ### Command builder (`build_cmd`, `mov2mp4.py` lines 35–62) -/

/-- `build_cmd(ffmpeg, inp, out, *, copy, crf, preset, extra)`. -/
def build_cmd (ffmpeg inp out : String) (copy : Bool) (crf : Int)
    (preset : String) (extra : List String) : List String :=
  let cmd := [ffmpeg, "-y", "-i", inp]
  let cmd := if copy then
      cmd ++ ["-c", "copy"]
    else
      cmd ++ ["-c:v", "libx264", "-crf", toString crf, "-preset", preset,
              "-c:a", "aac", "-b:a", "192k"]
  let cmd := cmd ++ ["-c:s", "copy"]
  let cmd := cmd ++ ["-movflags", "+faststart"]
  let cmd := if extra.isEmpty then cmd else cmd ++ extra
  cmd ++ [out]

/-- Number of adjacent occurrences of the two-token directive `x y` in a
token list. -/
def countPair : List String → String → String → Nat
  | a :: b :: rest, x, y =>
    (if a = x ∧ b = y then 1 else 0) + countPair (b :: rest) x y
  | _, _, _ => 0

/-! ### Filesystem model and input discovery (`iter_mov_files`, lines 86–92) -/

/-- A finite filesystem tree: a node is either a regular file or a
directory with a (scandir-ordered) list of named children. -/
inductive FS where
  | file : FS
  | dir : List (String × FS) → FS
deriving Repr

/-- First child of a directory-entry list with the given name. -/
def findChild : List (String × FS) → String → Option FS
  | [], _ => none
  | e :: rest, n => if e.1 = n then some e.2 else findChild rest n

/-- Resolve a component path in a filesystem tree (`none` = no such
entry, so `Path.exists()` is `lookup ≠ none`, `Path.is_file()` is
`lookup = some .file`). -/
def lookup : FS → List String → Option FS
  | f, [] => some f
  | FS.file, _ :: _ => none
  | FS.dir cs, n :: rest =>
    match findChild cs n with
    | some sub => lookup sub rest
    | none => none

/-- Whether a name matches the glob pattern `*.mov` (fnmatch of `*.mov`
is exactly "ends with `.mov`", case-sensitively as on POSIX). -/
def matchName (n : String) : Bool :=
  (n.data.reverse.take (".mov".data.reverse.length)) = ".mov".data.reverse

/-- `Path.glob("*.mov")` on a directory's entries: the names of the
children (files or subdirectories alike) matching the pattern, in
scandir order. -/
def globMatches (cs : List (String × FS)) : List (List String) :=
  (cs.filter (fun e => matchName e.1)).map (fun e => [e.1])

mutual

/-- `Path.rglob("*.mov")`: matching entries of a directory first, then
the results of each subdirectory in order (pathlib's recursive wildcard
selector yields a directory's own matches before descending). -/
def rglobFS : FS → List (List String)
  | FS.file => []
  | FS.dir cs => globMatches cs ++ rglobSubs cs

def rglobSubs : List (String × FS) → List (List String)
  | [] => []
  | e :: rest => (rglobFS e.2).map (fun p => e.1 :: p) ++ rglobSubs rest

end

/-- `iter_mov_files(root, recursive)` (lines 86–92): a file root is
returned as-is; a directory root is enumerated by `rglob`/`glob`.  (The
nonexistent-root case is unreachable from `main`, which checks
existence first.) -/
def iter_mov_files (fs : FS) (root : List String) (recursive : Bool) :
    List (List String) :=
  match lookup fs root with
  | some FS.file => [root]
  | some (FS.dir cs) =>
    if recursive then (rglobFS (FS.dir cs)).map (fun p => root ++ p)
    else (globMatches cs).map (fun p => root ++ p)
  | none => []

/-- Spec-side characterisation of recursive discovery, following the
spec's words: a relative path in the subtree whose final name matches
the pattern (each intermediate component descending into a directory). -/
def subtreeMatch (f : FS) : List String → Bool
  | [] => false
  | n :: rest =>
    match f with
    | FS.file => false
    | FS.dir cs =>
      if rest.isEmpty then cs.any (fun e => e.1 = n) && matchName n
      else cs.any (fun e => e.1 = n && subtreeMatch e.2 rest)
termination_by l => l.length

/-! ### Environment, effects, and the orchestrator (`main`, lines 94–139) -/

/-- The ambient environment: result of `shutil.which("ffmpeg")`, the
filesystem, and the success of each `subprocess.run(cmd)`. -/
structure Env where
  ffmpegExe : Option String
  fs : FS
  runOk : List String → Bool

/-- Parsed command-line arguments (lines 95–104).  `extra` collapses
argparse's `None`/`[]` exactly as the script does (`args.extra or []`);
`output` is `none` both when `-o` is absent and when it is falsy. -/
structure Args where
  input : List String
  output : Option FPath
  copy : Bool
  crf : Int
  preset : String
  recursive : Bool
  extra : List String

/-- Observable side effects of a conversion, in program order. -/
inductive Event where
  | mkdirParents : List String → Event
  | runProc : List String → Event
deriving DecidableEq, Repr

/-- Extract the command of a process-execution event. -/
def evCmd : Event → Option (List String)
  | Event.runProc c => some c
  | _ => none

/-- Extract the directory of a directory-creation event. -/
def evMkdir : Event → Option (List String)
  | Event.mkdirParents d => some d
  | _ => none

/-- `which_ffmpeg()` (lines 27–33): `sys.exit(1)` when `ffmpeg` is not
on the search path. -/
def which_ffmpeg (env : Env) : Except Nat String :=
  match env.ffmpegExe with
  | none => Except.error 1
  | some exe => Except.ok exe

/-- The output path used by `convert_file` (lines 67–70): the given one,
or the input with its suffix replaced by `.mp4`. -/
def resolvedOut (inp : FPath) : Option FPath → FPath
  | none => inp.withSuffix ".mp4"
  | some o => o

/-- `convert_file(inp, out, *, copy, crf, preset, extra)` (lines 64–84):
locate ffmpeg, derive the output path when none is given, create the
output's parent directories, run the built command, and report success.
Returns the event trace and the success flag; `Except.error` is
`sys.exit`. -/
def convert_file (env : Env) (inp : FPath) (outArg : Option FPath)
    (copy : Bool) (crf : Int) (preset : String) (extra : List String) :
    Except Nat (List Event × Bool) :=
  match which_ffmpeg env with
  | Except.error c => Except.error c
  | Except.ok ffmpeg =>
    let out := resolvedOut inp outArg
    let cmd := build_cmd ffmpeg (pathStr inp.parts) (pathStr out.parts)
      copy crf preset extra
    Except.ok ([Event.mkdirParents out.parts.dropLast, Event.runProc cmd],
      env.runOk cmd)

/-- The batch loop of `main` (lines 130–134) plus the final exit-status
selection (lines 136–139): convert each discovered file with a derived
output, count failures, exit 2 iff any failed. -/
def runBatch (env : Env) (copy : Bool) (crf : Int) (preset : String)
    (extra : List String) :
    List (List String) → Nat → List Event → Nat × List Event
  | [], failures, evs => (if failures ≠ 0 then 2 else 0, evs)
  | p :: rest, failures, evs =>
    match convert_file env ⟨p⟩ none copy crf preset extra with
    | Except.error c => (c, evs)
    | Except.ok (es, ok) =>
      runBatch env copy crf preset extra rest
        (failures + (if ok then 0 else 1)) (evs ++ es)

/-- Resolution of an explicit `-o`/`--output` path (lines 113–116): the
target extension is forced when the given suffix is not `.mp4`
case-insensitively (`out.suffix.lower() != ".mp4"`; `str.lower` acts
per character). -/
def resolveOutput (o : FPath) : FPath :=
  if (suffixChars o.name.data).map Char.toLower ≠ ".mp4".data then
    o.withSuffix ".mp4"
  else o

/-- `main()` (lines 94–139): exit code and event trace of one run. -/
def mainRun (env : Env) (a : Args) : Nat × List Event :=
  match lookup env.fs a.input with
  | none => (1, [])
  | some FS.file =>
    let outArg : Option FPath := match a.output with
      | some o => some (resolveOutput o)
      | none => none
    match convert_file env ⟨a.input⟩ outArg a.copy a.crf a.preset a.extra with
    | Except.error c => (c, [])
    | Except.ok (es, ok) => (if ok then 0 else 2, es)
  | some (FS.dir _) =>
    let movs := iter_mov_files env.fs a.input a.recursive
    if movs.isEmpty then (0, [])
    else runBatch env a.copy a.crf a.preset a.extra movs 0 []

/-- The command run for a batch target `t`: output derived from the
input by replacing its suffix with `.mp4`. -/
def batchCmd (ffmpeg : String) (copy : Bool) (crf : Int) (preset : String)
    (extra : List String) (t : List String) : List String :=
  build_cmd ffmpeg (pathStr t) (pathStr (FPath.withSuffix ⟨t⟩ ".mp4").parts)
    copy crf preset extra

/-- The command `main` ends up running for one discovered target `t`
(in single-file mode an explicit output is resolved; in batch mode the
output is always derived from the input). -/
def targetCmd (a : Args) (ffmpeg : String) (isSingleFile : Bool)
    (t : List String) : List String :=
  if isSingleFile then
    match a.output with
    | some o => build_cmd ffmpeg (pathStr t) (pathStr (resolveOutput o).parts)
        a.copy a.crf a.preset a.extra
    | none => batchCmd ffmpeg a.copy a.crf a.preset a.extra t
  else batchCmd ffmpeg a.copy a.crf a.preset a.extra t

/-- Modelled from the spec's exit-code table, amended for the lazy
prerequisite check: 1 when the input path does not exist, else 0 when
there is nothing to convert, else 1 when `ffmpeg` is missing, else 0
when every conversion succeeds and 2 when at least one fails. -/
def specExitCode (env : Env) (a : Args) : Nat :=
  match lookup env.fs a.input with
  | none => 1
  | some root =>
    let isSingleFile := match root with
      | FS.file => true
      | FS.dir _ => false
    let targets := iter_mov_files env.fs a.input a.recursive
    if targets.isEmpty then 0
    else
      match env.ffmpegExe with
      | none => 1
      | some f =>
        if targets.all (fun t => env.runOk (targetCmd a f isSingleFile t))
        then 0 else 2

/-! ### Concrete sample data used by witnesses and counterexamples -/

/-- Children of a sample directory: two matching files (one nested) and
one non-matching file. -/
def csSample : List (String × FS) :=
  [("a.mov", FS.file), ("d", FS.dir [("b.mov", FS.file)]), ("c.txt", FS.file)]

/-- A sample directory tree. -/
def fsSample : FS := FS.dir csSample

/-- A directory whose only entry is a subdirectory named `sub.mov`. -/
def fsDirNamedMov : FS := FS.dir [("sub.mov", FS.dir [])]

/-- A directory with three matching files. -/
def fsBatch3 : FS :=
  FS.dir [("a.mov", FS.file), ("b.mov", FS.file), ("c.mov", FS.file)]

/-- Environment where ffmpeg is present and the conversion of `b.mov`
(the command's input token, index 3) fails while the others succeed. -/
def envBatch3 : Env :=
  { ffmpegExe := some "ffmpeg", fs := fsBatch3,
    runOk := fun cmd => cmd.getD 3 "" != "b.mov" }

/-- Environment with no ffmpeg on the search path and an empty input
directory. -/
def envNoFfmpeg : Env :=
  { ffmpegExe := none, fs := FS.dir [], runOk := fun _ => true }

/-- Environment where ffmpeg is present but every invocation fails. -/
def envRunFail : Env :=
  { ffmpegExe := some "ffmpeg", fs := FS.dir [], runOk := fun _ => false }

/-- Default arguments: input is the filesystem root, no explicit output,
re-encode with CRF 20 and the `medium` preset, not recursive. -/
def baseArgs : Args :=
  { input := [], output := none, copy := false, crf := 20,
    preset := "medium", recursive := false, extra := [] }

/-! ## Helper lemmas -/

theorem countPair_cons₂ (a b : String) (l : List String) (x y : String) :
    countPair (a :: b :: l) x y =
      (if a = x ∧ b = y then 1 else 0) + countPair (b :: l) x y := rfl

theorem countPair_cons_of_fst_ne {a x y : String} {l : List String} (h : a ≠ x) :
    countPair (a :: l) x y = countPair l x y := by
  cases l with
  | nil => rfl
  | cons b t => rw [countPair_cons₂]; simp [h]

theorem countPair_append_single {x : String} (l : List String) (t y : String)
    (h : x ∉ l) : countPair (l ++ [t]) x y = 0 := by
  induction l with
  | nil => rfl
  | cons a rest ih =>
    have h1 : x ≠ a ∧ x ∉ rest := by simpa [List.mem_cons, not_or] using h
    rw [List.cons_append, countPair_cons_of_fst_ne (fun hx => h1.1 hx.symm)]
    exact ih h1.2

theorem build_cmd_false_eq (f i o : String) (crf : Int) (p : String)
    (e : List String) :
    build_cmd f i o false crf p e =
      f :: "-y" :: "-i" :: i :: "-c:v" :: "libx264" :: "-crf" :: toString crf ::
      "-preset" :: p :: "-c:a" :: "aac" :: "-b:a" :: "192k" ::
      "-c:s" :: "copy" :: "-movflags" :: "+faststart" :: (e ++ [o]) := by
  cases e <;> simp [build_cmd]

theorem build_cmd_true_eq (f i o : String) (crf : Int) (p : String)
    (e : List String) :
    build_cmd f i o true crf p e =
      f :: "-y" :: "-i" :: i :: "-c" :: "copy" ::
      "-c:s" :: "copy" :: "-movflags" :: "+faststart" :: (e ++ [o]) := by
  cases e <;> simp [build_cmd]

/-! ## Claim C2 — codec directives versus the stream-copy directive -/

/-- Claim C2 (amended): for every conversion request whose raw
passthrough arguments do not themselves contain the directive tokens
(and whose executable/input/output strings do not spell them), the
command built with the stream-copy flag unset contains the re-encode
video-codec directive `-c:v libx264` exactly once together with the
quality (`-crf`) and preset (`-preset`) directives and never the
stream-copy directive `-c copy`; with the flag set it contains the
stream-copy directive exactly once and none of the codec, quality, or
preset tokens. -/
theorem build_cmd_codec_selection (f i o : String) (crf : Int) (p : String)
    (e : List String)
    (hc : "-c" ∉ e) (hv : "-c:v" ∉ e) (hq : "-crf" ∉ e) (hs : "-preset" ∉ e)
    (hf : "-c:v" ≠ f ∧ "-crf" ≠ f ∧ "-preset" ≠ f)
    (hi : "-c:v" ≠ i ∧ "-crf" ≠ i ∧ "-preset" ≠ i)
    (ho : "-c:v" ≠ o ∧ "-crf" ≠ o ∧ "-preset" ≠ o) :
    (countPair (build_cmd f i o false crf p e) "-c:v" "libx264" = 1 ∧
     "-crf" ∈ build_cmd f i o false crf p e ∧
     "-preset" ∈ build_cmd f i o false crf p e ∧
     countPair (build_cmd f i o false crf p e) "-c" "copy" = 0) ∧
    (countPair (build_cmd f i o true crf p e) "-c" "copy" = 1 ∧
     "-c:v" ∉ build_cmd f i o true crf p e ∧
     "-crf" ∉ build_cmd f i o true crf p e ∧
     "-preset" ∉ build_cmd f i o true crf p e) := by
  refine ⟨⟨?_, ?_, ?_, ?_⟩, ?_, ?_, ?_, ?_⟩
  · rw [build_cmd_false_eq]
    simp only [countPair_cons₂]
    rw [countPair_cons_of_fst_ne (by decide), countPair_append_single _ _ _ hv]
    simp
  · rw [build_cmd_false_eq]; simp
  · rw [build_cmd_false_eq]; simp
  · rw [build_cmd_false_eq]
    simp only [countPair_cons₂]
    rw [countPair_cons_of_fst_ne (by decide), countPair_append_single _ _ _ hc]
    simp
  · rw [build_cmd_true_eq]
    simp only [countPair_cons₂]
    rw [countPair_cons_of_fst_ne (by decide), countPair_append_single _ _ _ hc]
    simp
  · rw [build_cmd_true_eq]
    simp [List.mem_cons, List.mem_append, hf.1, hi.1, ho.1, hv]
  · rw [build_cmd_true_eq]
    simp [List.mem_cons, List.mem_append, hf.2.1, hi.2.1, ho.2.1, hq]
  · rw [build_cmd_true_eq]
    simp [List.mem_cons, List.mem_append, hf.2.2, hi.2.2, ho.2.2, hs]

/-- Witness for claim C2's amended theorem at a concrete request. -/
theorem build_cmd_codec_selection_witness :
    (countPair (build_cmd "ffmpeg" "in.mov" "out.mp4" false 20 "medium" [])
        "-c:v" "libx264" = 1 ∧
     "-crf" ∈ build_cmd "ffmpeg" "in.mov" "out.mp4" false 20 "medium" [] ∧
     "-preset" ∈ build_cmd "ffmpeg" "in.mov" "out.mp4" false 20 "medium" [] ∧
     countPair (build_cmd "ffmpeg" "in.mov" "out.mp4" false 20 "medium" [])
        "-c" "copy" = 0) ∧
    (countPair (build_cmd "ffmpeg" "in.mov" "out.mp4" true 20 "medium" [])
        "-c" "copy" = 1 ∧
     "-c:v" ∉ build_cmd "ffmpeg" "in.mov" "out.mp4" true 20 "medium" [] ∧
     "-crf" ∉ build_cmd "ffmpeg" "in.mov" "out.mp4" true 20 "medium" [] ∧
     "-preset" ∉ build_cmd "ffmpeg" "in.mov" "out.mp4" true 20 "medium" []) :=
  build_cmd_codec_selection "ffmpeg" "in.mov" "out.mp4" 20 "medium" []
    (by decide) (by decide) (by decide) (by decide)
    (by decide) (by decide) (by decide)

/-- Claim C2 counterexample: with the stream-copy flag unset but the
passthrough arguments set to `["-c", "copy"]`, the built command does
contain the stream-copy directive, refuting the claim as stated for
every conversion request. -/
theorem build_cmd_codec_counterexample :
    countPair (build_cmd "ffmpeg" "in.mov" "out.mp4" false 20 "medium"
      ["-c", "copy"]) "-c" "copy" = 1 := by decide

/-! ## Claim C3 — subtitle-copy, faststart, and overwrite directives -/

/-- Claim C3 (amended): for every conversion request whose raw
passthrough arguments do not themselves contain the `-c:s` or
`-movflags` tokens, the built command contains exactly one subtitle-copy
directive `-c:s copy` and exactly one metadata-relocation directive
`-movflags +faststart` regardless of the stream-copy flag, and always
contains the overwrite-without-prompt token `-y`. -/
theorem build_cmd_fixed_directives (f i o : String) (copy : Bool) (crf : Int)
    (p : String) (e : List String)
    (h1 : "-c:s" ∉ e) (h2 : "-movflags" ∉ e) :
    countPair (build_cmd f i o copy crf p e) "-c:s" "copy" = 1 ∧
    countPair (build_cmd f i o copy crf p e) "-movflags" "+faststart" = 1 ∧
    "-y" ∈ build_cmd f i o copy crf p e := by
  cases copy
  · refine ⟨?_, ?_, ?_⟩
    · rw [build_cmd_false_eq]
      simp only [countPair_cons₂]
      rw [countPair_cons_of_fst_ne (by decide),
        countPair_append_single _ _ _ h1]
      simp
    · rw [build_cmd_false_eq]
      simp only [countPair_cons₂]
      rw [countPair_cons_of_fst_ne (by decide),
        countPair_append_single _ _ _ h2]
      simp
    · rw [build_cmd_false_eq]; simp
  · refine ⟨?_, ?_, ?_⟩
    · rw [build_cmd_true_eq]
      simp only [countPair_cons₂]
      rw [countPair_cons_of_fst_ne (by decide),
        countPair_append_single _ _ _ h1]
      simp
    · rw [build_cmd_true_eq]
      simp only [countPair_cons₂]
      rw [countPair_cons_of_fst_ne (by decide),
        countPair_append_single _ _ _ h2]
      simp
    · rw [build_cmd_true_eq]; simp

/-- Witness for claim C3's amended theorem at a concrete request. -/
theorem build_cmd_fixed_directives_witness :
    countPair (build_cmd "ffmpeg" "in.mov" "out.mp4" false 20 "medium" [])
      "-c:s" "copy" = 1 ∧
    countPair (build_cmd "ffmpeg" "in.mov" "out.mp4" false 20 "medium" [])
      "-movflags" "+faststart" = 1 ∧
    "-y" ∈ build_cmd "ffmpeg" "in.mov" "out.mp4" false 20 "medium" [] :=
  build_cmd_fixed_directives "ffmpeg" "in.mov" "out.mp4" false 20 "medium" []
    (by decide) (by decide)

/-- Claim C3 counterexample: with passthrough arguments
`["-c:s", "copy"]` the built command contains the subtitle-copy
directive twice, refuting "exactly one" as stated for every request. -/
theorem build_cmd_fixed_counterexample :
    countPair (build_cmd "ffmpeg" "in.mov" "out.mp4" false 20 "medium"
      ["-c:s", "copy"]) "-c:s" "copy" = 2 := by decide

/-! ## Claim C4 — passthrough arguments placement and output position -/

/-- Claim C4: for every conversion request the built command is the
built-in directives (the command built with no passthrough arguments,
minus its final output token) followed by the user-supplied passthrough
arguments verbatim, and the output path is the last token. -/
theorem build_cmd_extra_last (f i o : String) (copy : Bool) (crf : Int)
    (p : String) (e : List String) :
    build_cmd f i o copy crf p e =
      (build_cmd f i o copy crf p []).dropLast ++ e ++ [o] ∧
    (build_cmd f i o copy crf p e).getLast? = some o := by
  constructor
  · cases copy
    · rw [build_cmd_false_eq, build_cmd_false_eq]
      simp [List.dropLast]
    · rw [build_cmd_true_eq, build_cmd_true_eq]
      simp [List.dropLast]
  · cases copy
    · rw [build_cmd_false_eq]
      simp only [← List.cons_append]
      rw [List.getLast?_concat]
    · rw [build_cmd_true_eq]
      simp only [← List.cons_append]
      rw [List.getLast?_concat]

/-! ## Suffix lemmas for the pathlib model -/

theorem suffixChars_append_mp4 (xs : List Char) (hx : xs ≠ []) :
    suffixChars (xs ++ ['.', 'm', 'p', '4']) = ['.', 'm', 'p', '4'] := by
  have hlen : 0 < xs.length := List.length_pos.mpr hx
  have hrev : (xs ++ ['.', 'm', 'p', '4']).reverse =
      '4' :: 'p' :: 'm' :: '.' :: xs.reverse := by
    rw [List.reverse_append]; rfl
  have htl : revTailLen ('4' :: 'p' :: 'm' :: '.' :: xs.reverse) = 3 := by
    unfold revTailLen
    rw [List.takeWhile_cons, if_pos (by decide), List.takeWhile_cons,
      if_pos (by decide), List.takeWhile_cons, if_pos (by decide),
      List.takeWhile_cons, if_neg (by decide)]
    rfl
  unfold suffixChars
  rw [hrev, htl]
  rw [if_pos ⟨by omega, by simp [List.length_reverse]; omega⟩]
  rw [List.take_succ_cons, List.take_succ_cons, List.take_succ_cons,
    List.take_succ_cons, List.take_zero]
  rfl

theorem stem_append_suffix (cs : List Char) :
    stemChars cs ++ suffixChars cs = cs := by
  unfold stemChars suffixChars
  split
  case isTrue h =>
    rw [List.length_reverse] at h
    rw [List.take_reverse, List.reverse_reverse, List.length_drop]
    have heq : cs.length -
        (cs.length - (cs.length - (revTailLen cs.reverse + 1))) =
        cs.length - (revTailLen cs.reverse + 1) := by omega
    rw [heq, List.take_append_drop]
  case isFalse h => simp

theorem stemChars_ne_nil {cs : List Char} (h : cs ≠ []) : stemChars cs ≠ [] := by
  unfold stemChars suffixChars
  split
  case isTrue hc =>
    rw [List.length_reverse] at hc
    apply List.ne_nil_of_length_pos
    rw [List.take_reverse, List.reverse_reverse, List.length_drop,
      List.length_take]
    have := hc.2
    omega
  case isFalse hc => simpa using h

theorem withSuffixChars_eq_stem_append (cs sfx : List Char) :
    withSuffixChars cs sfx = stemChars cs ++ sfx := by
  unfold withSuffixChars stemChars
  split
  case isTrue h =>
    have h0 : suffixChars cs = [] := by simpa using h
    simp [h0]
  case isFalse h => rfl

theorem FPath.name_withSuffix (p : FPath) (s : String) :
    (p.withSuffix s).name = ⟨withSuffixChars p.name.data s.data⟩ := by
  unfold FPath.withSuffix FPath.name
  rw [List.getLast?_concat]
  rfl

theorem FPath.parts_withSuffix_dropLast (p : FPath) (s : String) :
    (p.withSuffix s).parts.dropLast = p.parts.dropLast :=
  List.dropLast_concat

/-! ## Claim C5 — derived output path -/

/-- Claim C5: for every conversion with no explicit output path, the
derived output `inp.with_suffix(".mp4")` (line 68) is placed in the same
directory as the input, its name is the input's stem followed by `.mp4`
(the extension is replaced: the input's name is that stem followed by
the input's extension), and the derived name's extension is `.mp4`. -/
theorem derived_output_replaces_extension (p : FPath) (h : p.name ≠ "") :
    (p.withSuffix ".mp4").parts.dropLast = p.parts.dropLast ∧
    (p.withSuffix ".mp4").name.data =
      stemChars p.name.data ++ ['.', 'm', 'p', '4'] ∧
    nameSuffix ((p.withSuffix ".mp4").name) = ".mp4" ∧
    p.name.data = stemChars p.name.data ++ (nameSuffix p.name).data := by
  have hdata : p.name.data ≠ [] := fun e => h (String.ext e)
  have hname : (p.withSuffix ".mp4").name.data =
      stemChars p.name.data ++ ['.', 'm', 'p', '4'] := by
    rw [FPath.name_withSuffix]
    show withSuffixChars p.name.data ".mp4".data = _
    rw [withSuffixChars_eq_stem_append]
  refine ⟨FPath.parts_withSuffix_dropLast p _, hname, ?_, ?_⟩
  · apply String.ext
    show suffixChars ((p.withSuffix ".mp4").name.data) = _
    rw [hname]
    exact suffixChars_append_mp4 _ (stemChars_ne_nil hdata)
  · exact (stem_append_suffix p.name.data).symm

/-- Witness for claim C5 at the concrete input `clip.mov`. -/
theorem derived_output_replaces_extension_witness :
    (FPath.withSuffix ⟨["clip.mov"]⟩ ".mp4").parts.dropLast =
      (FPath.mk ["clip.mov"]).parts.dropLast ∧
    (FPath.withSuffix ⟨["clip.mov"]⟩ ".mp4").name.data =
      stemChars (FPath.name ⟨["clip.mov"]⟩).data ++ ['.', 'm', 'p', '4'] ∧
    nameSuffix ((FPath.withSuffix ⟨["clip.mov"]⟩ ".mp4").name) = ".mp4" ∧
    (FPath.name ⟨["clip.mov"]⟩).data =
      stemChars (FPath.name ⟨["clip.mov"]⟩).data ++
        (nameSuffix (FPath.name ⟨["clip.mov"]⟩)).data :=
  derived_output_replaces_extension ⟨["clip.mov"]⟩ (by decide)

/-! ## Claim C6 — explicit output extension forcing -/

/-- Claim C6 (amended): the explicit `-o` output path resolution (lines
113–116) compares the extension with `.mp4` case-insensitively: when the
lowercased extension is `.mp4` the path is kept unchanged (so the target
extension is never duplicated), and otherwise the resolved path has
`.mp4` substituted for its extension (appended when the path had no
extension), in the same directory, and its extension is then `.mp4`. -/
theorem resolveOutput_forces_target_ext (o : FPath) (h : o.name ≠ "") :
    ((suffixChars o.name.data).map Char.toLower = ".mp4".data →
      resolveOutput o = o) ∧
    ((suffixChars o.name.data).map Char.toLower ≠ ".mp4".data →
      (resolveOutput o).parts.dropLast = o.parts.dropLast ∧
      (resolveOutput o).name.data =
        stemChars o.name.data ++ ['.', 'm', 'p', '4'] ∧
      nameSuffix ((resolveOutput o).name) = ".mp4" ∧
      (nameSuffix o.name = "" →
        (resolveOutput o).name.data = o.name.data ++ ['.', 'm', 'p', '4'])) := by
  have hdata : o.name.data ≠ [] := fun e => h (String.ext e)
  constructor
  · intro hm
    unfold resolveOutput
    rw [if_neg (not_not_intro hm)]
  · intro hm
    have hres : resolveOutput o = o.withSuffix ".mp4" := by
      unfold resolveOutput; rw [if_pos hm]
    have hname : (o.withSuffix ".mp4").name.data =
        stemChars o.name.data ++ ['.', 'm', 'p', '4'] := by
      rw [FPath.name_withSuffix]
      show withSuffixChars o.name.data ".mp4".data = _
      rw [withSuffixChars_eq_stem_append]
    rw [hres]
    refine ⟨FPath.parts_withSuffix_dropLast o _, hname, ?_, ?_⟩
    · apply String.ext
      show suffixChars ((o.withSuffix ".mp4").name.data) = _
      rw [hname]
      exact suffixChars_append_mp4 _ (stemChars_ne_nil hdata)
    · intro hsfx
      have h0 : suffixChars o.name.data = [] := by
        have hd := congrArg String.data hsfx
        simpa [nameSuffix] using hd
      rw [hname]
      unfold stemChars
      rw [h0]
      simp

/-- Witness for claim C6's amended theorem at the concrete explicit
output `movie.avi`. -/
theorem resolveOutput_forces_target_ext_witness :
    ((suffixChars (FPath.name ⟨["movie.avi"]⟩).data).map Char.toLower =
        ".mp4".data →
      resolveOutput ⟨["movie.avi"]⟩ = ⟨["movie.avi"]⟩) ∧
    ((suffixChars (FPath.name ⟨["movie.avi"]⟩).data).map Char.toLower ≠
        ".mp4".data →
      (resolveOutput ⟨["movie.avi"]⟩).parts.dropLast =
        (FPath.mk ["movie.avi"]).parts.dropLast ∧
      (resolveOutput ⟨["movie.avi"]⟩).name.data =
        stemChars (FPath.name ⟨["movie.avi"]⟩).data ++ ['.', 'm', 'p', '4'] ∧
      nameSuffix ((resolveOutput ⟨["movie.avi"]⟩).name) = ".mp4" ∧
      (nameSuffix (FPath.name ⟨["movie.avi"]⟩) = "" →
        (resolveOutput ⟨["movie.avi"]⟩).name.data =
          (FPath.name ⟨["movie.avi"]⟩).data ++ ['.', 'm', 'p', '4'])) :=
  resolveOutput_forces_target_ext ⟨["movie.avi"]⟩ (by decide)

/-- Claim C6 counterexample: the explicit output `clip.MP4` has
extension `.MP4`, which is not the target extension `.mp4`, yet the
resolved output path is unchanged — `.mp4` is neither substituted nor
appended, refuting the claim as stated (the code compares
case-insensitively). -/
theorem resolveOutput_counterexample :
    nameSuffix (FPath.name ⟨["clip.MP4"]⟩) ≠ ".mp4" ∧
    resolveOutput ⟨["clip.MP4"]⟩ = ⟨["clip.MP4"]⟩ ∧
    nameSuffix (FPath.name (resolveOutput ⟨["clip.MP4"]⟩)) ≠ ".mp4" := by
  decide

/-! ## Discovery lemmas -/

theorem mem_globMatches {p : List String} {cs : List (String × FS)} :
    p ∈ globMatches cs ↔ ∃ e ∈ cs, matchName e.1 = true ∧ p = [e.1] := by
  unfold globMatches
  rw [List.mem_map]
  constructor
  · rintro ⟨e, he, hp⟩
    rw [List.mem_filter] at he
    exact ⟨e, he.1, he.2, hp.symm⟩
  · rintro ⟨e, he, hm, hp⟩
    exact ⟨e, List.mem_filter.mpr ⟨he, hm⟩, hp.symm⟩

theorem mem_rglobSubs {p : List String} {cs : List (String × FS)} :
    p ∈ rglobSubs cs ↔
      ∃ n sub, (n, sub) ∈ cs ∧ ∃ q ∈ rglobFS sub, p = n :: q := by
  induction cs with
  | nil => simp [rglobSubs]
  | cons e rest ih =>
    simp only [rglobSubs, List.mem_append, List.mem_map, List.mem_cons, ih]
    constructor
    · rintro (⟨q, hq, hp⟩ | ⟨n, sub, hmem, q, hq, hp⟩)
      · exact ⟨e.1, e.2, Or.inl (Prod.mk.eta).symm, q, hq, hp.symm⟩
      · exact ⟨n, sub, Or.inr hmem, q, hq, hp⟩
    · rintro ⟨n, sub, hmem | hmem, q, hq, hp⟩
      · cases hmem
        exact Or.inl ⟨q, hq, hp.symm⟩
      · exact Or.inr ⟨n, sub, hmem, q, hq, hp⟩

theorem nil_not_mem_rglobFS (f : FS) : ([] : List String) ∉ rglobFS f := by
  cases f with
  | file => simp [rglobFS]
  | dir cs =>
    simp only [rglobFS, List.mem_append]
    rintro (hg | hs)
    · obtain ⟨e, _, _, hp⟩ := mem_globMatches.mp hg
      exact List.noConfusion hp
    · obtain ⟨n, sub, _, q, _, hp⟩ := mem_rglobSubs.mp hs
      exact List.noConfusion hp

theorem mem_rglobFS_iff (l : List String) :
    ∀ f : FS, l ∈ rglobFS f ↔ subtreeMatch f l = true := by
  induction l with
  | nil =>
    intro f
    simp only [subtreeMatch]
    simp [nil_not_mem_rglobFS f]
  | cons n rest ih =>
    intro f
    cases f with
    | file => simp [rglobFS, subtreeMatch]
    | dir cs =>
      simp only [rglobFS, List.mem_append]
      cases rest with
      | nil =>
        simp only [subtreeMatch, List.isEmpty_nil, if_true, Bool.and_eq_true,
          List.any_eq_true]
        constructor
        · rintro (hg | hs)
          · obtain ⟨e, he, hm, hp⟩ := mem_globMatches.mp hg
            injection hp with h1 _
            exact ⟨⟨e, he, by simp [h1]⟩, by rw [h1]; exact hm⟩
          · obtain ⟨n2, sub, hmem, q, hq, hp⟩ := mem_rglobSubs.mp hs
            injection hp with h1 h2
            rw [← h2] at hq
            exact absurd hq (nil_not_mem_rglobFS sub)
        · rintro ⟨⟨e, he, hd⟩, hm⟩
          have h1 : e.1 = n := by simpa using hd
          exact Or.inl (mem_globMatches.mpr
            ⟨e, he, by rw [h1]; exact hm, by rw [h1]⟩)
      | cons r rs =>
        simp only [subtreeMatch, List.isEmpty_cons, if_false,
          Bool.false_eq_true, List.any_eq_true]
        constructor
        · rintro (hg | hs)
          · obtain ⟨e, he, hm, hp⟩ := mem_globMatches.mp hg
            exact absurd hp (by simp)
          · obtain ⟨n2, sub, hmem, q, hq, hp⟩ := mem_rglobSubs.mp hs
            injection hp with h1 h2
            refine ⟨(n2, sub), hmem, ?_⟩
            rw [Bool.and_eq_true]
            refine ⟨by simp [h1.symm], ?_⟩
            rw [← h2] at hq
            exact (ih sub).mp hq
        · rintro ⟨e, he, hmatch⟩
          rw [Bool.and_eq_true] at hmatch
          have h1 : e.1 = n := by simpa using hmatch.1
          have h2 : (r :: rs) ∈ rglobFS e.2 := (ih e.2).mpr hmatch.2
          exact Or.inr (mem_rglobSubs.mpr
            ⟨e.1, e.2, by simpa using he, r :: rs, h2, by rw [h1]⟩)

/-! ## Claim C7 — input discovery -/

/-- Claim C7 (amended): discovery returns exactly the root itself when
the root is a file, without checking its extension and for either
recursive flag; when the root is a directory it returns exactly the
entries whose names match `*.mov` — but entries of any kind, files or
directories alike, since `glob` does not check the entry type:
top-level entries for `recursive = false`, and all matching entries of
the full subtree for `recursive = true`. -/
theorem iter_mov_files_spec (fs : FS) (root p : List String) :
    (lookup fs root = some FS.file →
      iter_mov_files fs root false = [root] ∧
      iter_mov_files fs root true = [root]) ∧
    (∀ cs, lookup fs root = some (FS.dir cs) →
      (p ∈ iter_mov_files fs root false ↔
        ∃ e ∈ cs, matchName e.1 = true ∧ p = root ++ [e.1]) ∧
      (p ∈ iter_mov_files fs root true ↔
        ∃ rel, subtreeMatch (FS.dir cs) rel = true ∧ p = root ++ rel)) := by
  refine ⟨fun hf => ?_, fun cs hd => ⟨?_, ?_⟩⟩
  · unfold iter_mov_files
    rw [hf]
    exact ⟨rfl, rfl⟩
  · unfold iter_mov_files
    rw [hd]
    show p ∈ (globMatches cs).map (fun q => root ++ q) ↔ _
    rw [List.mem_map]
    constructor
    · rintro ⟨q, hq, hp⟩
      obtain ⟨e, he, hm, hpe⟩ := mem_globMatches.mp hq
      exact ⟨e, he, hm, by rw [← hp, hpe]⟩
    · rintro ⟨e, he, hm, hp⟩
      exact ⟨[e.1], mem_globMatches.mpr ⟨e, he, hm, rfl⟩, hp.symm⟩
  · unfold iter_mov_files
    rw [hd]
    show p ∈ (rglobFS (FS.dir cs)).map (fun q => root ++ q) ↔ _
    rw [List.mem_map]
    constructor
    · rintro ⟨q, hq, hp⟩
      exact ⟨q, (mem_rglobFS_iff q (FS.dir cs)).mp hq, hp.symm⟩
    · rintro ⟨rel, hrel, hp⟩
      exact ⟨rel, (mem_rglobFS_iff rel (FS.dir cs)).mpr hrel, hp.symm⟩

/-- Witness for claim C7's amended theorem on a sample tree, at the
nested path `d/b.mov`. -/
theorem iter_mov_files_spec_witness :
    (["d", "b.mov"] ∈ iter_mov_files fsSample [] false ↔
      ∃ e ∈ csSample, matchName e.1 = true ∧ ["d", "b.mov"] = [] ++ [e.1]) ∧
    (["d", "b.mov"] ∈ iter_mov_files fsSample [] true ↔
      ∃ rel, subtreeMatch (FS.dir csSample) rel = true ∧
        ["d", "b.mov"] = [] ++ rel) :=
  (iter_mov_files_spec fsSample [] ["d", "b.mov"]).2 csSample rfl

/-- Claim C7 counterexample: in a directory containing a subdirectory
named `sub.mov`, non-recursive discovery returns that subdirectory even
though it is not a file (`glob("*.mov")` matches entries of any kind),
refuting "returns only top-level files matching the source extension". -/
theorem iter_mov_files_counterexample :
    iter_mov_files fsDirNamedMov [] false = [["sub.mov"]] ∧
    lookup fsDirNamedMov ["sub.mov"] = some (FS.dir []) ∧
    lookup fsDirNamedMov ["sub.mov"] ≠ some FS.file := by
  refine ⟨rfl, rfl, fun h => ?_⟩
  exact FS.noConfusion (Option.some.inj h)

/-! ## Orchestrator lemmas -/

theorem convert_file_err (env : Env) (hf : env.ffmpegExe = none)
    (inp : FPath) (outArg : Option FPath) (copy : Bool) (crf : Int)
    (preset : String) (extra : List String) :
    convert_file env inp outArg copy crf preset extra = Except.error 1 := by
  unfold convert_file which_ffmpeg
  rw [hf]

theorem convert_file_eq (env : Env) {f : String} (hf : env.ffmpegExe = some f)
    (inp : FPath) (outArg : Option FPath) (copy : Bool) (crf : Int)
    (preset : String) (extra : List String) :
    convert_file env inp outArg copy crf preset extra =
      Except.ok
        ([Event.mkdirParents (resolvedOut inp outArg).parts.dropLast,
          Event.runProc (build_cmd f (pathStr inp.parts)
            (pathStr (resolvedOut inp outArg).parts) copy crf preset extra)],
         env.runOk (build_cmd f (pathStr inp.parts)
            (pathStr (resolvedOut inp outArg).parts) copy crf preset extra)) := by
  unfold convert_file which_ffmpeg
  rw [hf]

theorem convert_file_batch_eq (env : Env) {f : String}
    (hf : env.ffmpegExe = some f) (p : List String) (copy : Bool) (crf : Int)
    (preset : String) (extra : List String) :
    convert_file env ⟨p⟩ none copy crf preset extra =
      Except.ok
        ([Event.mkdirParents (FPath.withSuffix ⟨p⟩ ".mp4").parts.dropLast,
          Event.runProc (batchCmd f copy crf preset extra p)],
         env.runOk (batchCmd f copy crf preset extra p)) := by
  unfold convert_file which_ffmpeg batchCmd resolvedOut
  rw [hf]

theorem runBatch_fst (env : Env) {f : String} (hf : env.ffmpegExe = some f)
    (copy : Bool) (crf : Int) (preset : String) (extra : List String) :
    ∀ (movs : List (List String)) (fails : Nat) (evs : List Event),
      (runBatch env copy crf preset extra movs fails evs).1 =
        (if fails = 0 ∧ movs.all
            (fun t => env.runOk (batchCmd f copy crf preset extra t)) = true
          then 0 else 2) := by
  intro movs
  induction movs with
  | nil =>
    intro fails evs
    by_cases hfa : fails = 0 <;> simp [runBatch, hfa]
  | cons p rest ih =>
    intro fails evs
    rw [runBatch, convert_file_batch_eq env hf]
    dsimp only
    rw [ih, List.all_cons]
    cases hrun : env.runOk (batchCmd f copy crf preset extra p) with
    | true => simp [hrun]
    | false => simp [hrun]

theorem runBatch_snd (env : Env) {f : String} (hf : env.ffmpegExe = some f)
    (copy : Bool) (crf : Int) (preset : String) (extra : List String) :
    ∀ (movs : List (List String)) (fails : Nat) (evs : List Event),
      (runBatch env copy crf preset extra movs fails evs).2 =
        evs ++ (movs.map (fun t =>
          [Event.mkdirParents (FPath.withSuffix ⟨t⟩ ".mp4").parts.dropLast,
           Event.runProc (batchCmd f copy crf preset extra t)])).flatten := by
  intro movs
  induction movs with
  | nil => intro fails evs; simp [runBatch]
  | cons p rest ih =>
    intro fails evs
    rw [runBatch, convert_file_batch_eq env hf]
    dsimp only
    rw [ih]
    simp [List.append_assoc]

theorem filterMap_evCmd_flatten (movs : List (List String))
    (d c : List String → List String) :
    ((movs.map (fun t =>
      [Event.mkdirParents (d t), Event.runProc (c t)])).flatten).filterMap
        evCmd = movs.map c := by
  induction movs with
  | nil => rfl
  | cons p rest ih => simp [evCmd, ih]

theorem filterMap_evMkdir_flatten (movs : List (List String))
    (d c : List String → List String) :
    ((movs.map (fun t =>
      [Event.mkdirParents (d t), Event.runProc (c t)])).flatten).filterMap
        evMkdir = movs.map d := by
  induction movs with
  | nil => rfl
  | cons p rest ih => simp [evMkdir, ih]

/-! ## Claim C1 — exit codes -/

/-- Claim C1 (amended): the exit status is 1 when the input path does
not exist; else 0 when there is nothing to convert (even if ffmpeg is
missing, since the prerequisite is only checked once a conversion is
attempted); else 1 when the ffmpeg executable is not on the search
path; else 0 when all conversions succeeded and 2 when at least one
conversion failed — in both single-file and batch mode.  Stated as a
refinement: the exit status of every run equals the spec-modelled exit
code. -/
theorem mainRun_exit_eq_spec (env : Env) (a : Args) :
    (mainRun env a).1 = specExitCode env a := by
  unfold mainRun specExitCode
  cases hl : lookup env.fs a.input with
  | none => rfl
  | some root =>
    cases root with
    | file =>
      have htargets : iter_mov_files env.fs a.input a.recursive =
          [a.input] := by
        unfold iter_mov_files
        rw [hl]
      rw [htargets]
      dsimp only
      cases hf : env.ffmpegExe with
      | none =>
        rw [convert_file_err env hf]
        rfl
      | some f =>
        cases ho : a.output with
        | none =>
          simp [ho, convert_file_eq env hf, targetCmd, batchCmd, resolvedOut]
        | some o =>
          simp [ho, convert_file_eq env hf, targetCmd, batchCmd, resolvedOut]
    | dir cs =>
      dsimp only
      by_cases hm :
          (iter_mov_files env.fs a.input a.recursive).isEmpty = true
      · simp [hm]
      · cases hf : env.ffmpegExe with
        | none =>
          rcases hne : iter_mov_files env.fs a.input a.recursive with
            _ | ⟨p, rest⟩
          · exact absurd hne (by simpa using hm)
          · simp [runBatch, convert_file_err env hf]
        | some f =>
          rw [if_neg hm, if_neg hm, runBatch_fst env hf]
          simp [targetCmd]

/-- Claim C1 counterexample: with ffmpeg missing from the search path
and the input an existing directory with no `.mov` files, the process
exits 0, not 1 as the claim requires whenever ffmpeg is not on the
search path (the code only checks the prerequisite inside
`convert_file`, which never runs here). -/
theorem mainRun_exit_counterexample :
    envNoFfmpeg.ffmpegExe = none ∧ (mainRun envNoFfmpeg baseArgs).1 = 0 :=
  ⟨rfl, rfl⟩

/-! ## Claim C8 — batch mode survives per-file failures -/

/-- Claim C8: in batch (directory) mode with ffmpeg available, every
discovered file is attempted exactly once in discovery order — the
trace of executed commands equals the discovered list mapped to its
per-file command, independently of which invocations fail, so a failed
conversion never aborts the batch — and the final exit status is 0
when every conversion succeeds and 2 when at least one fails. -/
theorem mainRun_batch_continues (env : Env) (a : Args) (f : String)
    (cs : List (String × FS)) (hf : env.ffmpegExe = some f)
    (hd : lookup env.fs a.input = some (FS.dir cs)) :
    (mainRun env a).2.filterMap evCmd =
      (iter_mov_files env.fs a.input a.recursive).map
        (batchCmd f a.copy a.crf a.preset a.extra) ∧
    (mainRun env a).1 =
      (if (iter_mov_files env.fs a.input a.recursive).all
          (fun t => env.runOk (batchCmd f a.copy a.crf a.preset a.extra t)) =
            true
        then 0 else 2) := by
  unfold mainRun
  rw [hd]
  dsimp only
  by_cases hm : (iter_mov_files env.fs a.input a.recursive).isEmpty = true
  · have hnil : iter_mov_files env.fs a.input a.recursive = [] := by
      simpa using hm
    rw [if_pos hm, hnil]
    exact ⟨rfl, rfl⟩
  · rw [if_neg hm]
    constructor
    · rw [runBatch_snd env hf]
      simp only [List.nil_append]
      exact filterMap_evCmd_flatten _ _ _
    · rw [runBatch_fst env hf]
      simp

/-- Witness for claim C8: three discovered files of which the middle
one fails; all three commands are still executed and the exit status
is 2. -/
theorem mainRun_batch_continues_witness :
    (mainRun envBatch3 baseArgs).2.filterMap evCmd =
      (iter_mov_files envBatch3.fs [] false).map
        (batchCmd "ffmpeg" false 20 "medium" []) ∧
    (mainRun envBatch3 baseArgs).1 = 2 :=
  ⟨(mainRun_batch_continues envBatch3 baseArgs "ffmpeg"
      [("a.mov", FS.file), ("b.mov", FS.file), ("c.mov", FS.file)]
      rfl rfl).1,
   ((mainRun_batch_continues envBatch3 baseArgs "ffmpeg"
      [("a.mov", FS.file), ("b.mov", FS.file), ("c.mov", FS.file)]
      rfl rfl).2).trans (by decide)⟩

/-! ## Claim C9 — batch mode ignores the explicit output -/

/-- Claim C9: in batch (directory) mode the run is identical whatever
explicit `--output` argument is supplied — the explicit output is
ignored — and (with ffmpeg available) the directory-creation trace
shows that every conversion's output is derived from its input path by
replacing its suffix with `.mp4`. -/
theorem mainRun_batch_ignores_output (env : Env) (a : Args) (o : FPath)
    (cs : List (String × FS)) (hd : lookup env.fs a.input = some (FS.dir cs)) :
    mainRun env { a with output := some o } =
      mainRun env { a with output := none } ∧
    (∀ f, env.ffmpegExe = some f →
      (mainRun env a).2.filterMap evMkdir =
        (iter_mov_files env.fs a.input a.recursive).map
          (fun t => (FPath.withSuffix ⟨t⟩ ".mp4").parts.dropLast)) := by
  constructor
  · unfold mainRun
    dsimp only
    rw [hd]
  · intro f hf
    unfold mainRun
    rw [hd]
    dsimp only
    by_cases hm : (iter_mov_files env.fs a.input a.recursive).isEmpty = true
    · have hnil : iter_mov_files env.fs a.input a.recursive = [] := by
        simpa using hm
      rw [if_pos hm, hnil]
      rfl
    · rw [if_neg hm, runBatch_snd env hf]
      simp only [List.nil_append]
      exact filterMap_evMkdir_flatten _ _ _

/-- Witness for claim C9 on a three-file directory with an explicit
output argument. -/
theorem mainRun_batch_ignores_output_witness :
    mainRun envBatch3 { baseArgs with output := some ⟨["x.mp4"]⟩ } =
      mainRun envBatch3 { baseArgs with output := none } ∧
    (mainRun envBatch3 baseArgs).2.filterMap evMkdir =
      (iter_mov_files envBatch3.fs [] false).map
        (fun t => (FPath.withSuffix ⟨t⟩ ".mp4").parts.dropLast) :=
  ⟨(mainRun_batch_ignores_output envBatch3 baseArgs ⟨["x.mp4"]⟩
      [("a.mov", FS.file), ("b.mov", FS.file), ("c.mov", FS.file)] rfl).1,
   (mainRun_batch_ignores_output envBatch3 baseArgs ⟨["x.mp4"]⟩
      [("a.mov", FS.file), ("b.mov", FS.file), ("c.mov", FS.file)] rfl).2
     "ffmpeg" rfl⟩

/-! ## Claim C10 — directories are created before the encoder runs -/

/-- Claim C10: for every conversion with ffmpeg available, the output
path's parent directories are created strictly before the encoder
process is invoked (the creation event precedes the execution event in
the trace), and when the conversion fails the creation event is still
in the trace — failure does not leave the recorded filesystem effects
unchanged. -/
theorem convert_file_mkdir_before_run (env : Env) (f : String) (inp : FPath)
    (outArg : Option FPath) (copy : Bool) (crf : Int) (preset : String)
    (extra : List String) (hf : env.ffmpegExe = some f) :
    ∃ es ok, convert_file env inp outArg copy crf preset extra =
        Except.ok (es, ok) ∧
      es = [Event.mkdirParents (resolvedOut inp outArg).parts.dropLast,
        Event.runProc (build_cmd f (pathStr inp.parts)
          (pathStr (resolvedOut inp outArg).parts) copy crf preset extra)] ∧
      (ok = false →
        Event.mkdirParents (resolvedOut inp outArg).parts.dropLast ∈ es) :=
  ⟨_, _, convert_file_eq env hf inp outArg copy crf preset extra, rfl,
    fun _ => List.mem_cons_self _ _⟩

/-- Witness for claim C10 in an environment where every encoder
invocation fails. -/
theorem convert_file_mkdir_before_run_witness :
    ∃ es ok, convert_file envRunFail ⟨["clip.mov"]⟩ none false 20 "medium" [] =
        Except.ok (es, ok) ∧
      es = [Event.mkdirParents
          (resolvedOut ⟨["clip.mov"]⟩ none).parts.dropLast,
        Event.runProc (build_cmd "ffmpeg" (pathStr ["clip.mov"])
          (pathStr (resolvedOut ⟨["clip.mov"]⟩ none).parts) false 20
          "medium" [])] ∧
      (ok = false →
        Event.mkdirParents
          (resolvedOut ⟨["clip.mov"]⟩ none).parts.dropLast ∈ es) :=
  convert_file_mkdir_before_run envRunFail "ffmpeg" ⟨["clip.mov"]⟩ none false
    20 "medium" [] rfl

end Mov2mp4
